import Mathlib

/-!
Verification of the IsoLog core against its specification.

This development gives a shallow embedding, in Lean 4, of the parts of the
IsoLog backend that the checked properties talk about:

* `backend/blockchain/hash_computer.py` (Merkle root, batch hash),
* `backend/blockchain/chain_manager.py` (block store, chain verification),
* `backend/blockchain/integrity_verifier.py` (single-event inclusion check),
* `backend/parsers/parser_registry.py` (registration and auto-detection),
* `backend/detection/sigma/matcher.py` (boolean condition evaluation),
* `backend/detection/scorer.py` (threat score),
* `backend/storage/event_store.py` (hashing batches and batch marking),
* `backend/parsers/formats/linux_syslog.py` (RFC 3164 parsing, SSH enrichment).

Modelling conventions, used throughout:

* SHA-256 (`hashlib.sha256(...).hexdigest()`) is an external primitive; it is
  modelled as an abstract parameter `H : String → String`.  Likewise the
  deterministic JSON serialisation inside `HashComputer.hash_event` is folded
  into an abstract per-event hash `hashEvent : α → String`.  No checked
  property depends on the actual hash values, only on which strings are
  hashed; concrete instantiations of `H` are used for closed evaluations.
* Python code that can raise an exception on the modelled path (an
  `IndexError` from an out-of-range list subscript) is modelled with
  `Option`: `none` is an uncaught exception, `some` a normal return.
* Python `or`-defaulting on strings (`x or "d"`, where the empty string is
  falsy) is modelled by `pyOr`.
* Bounded loops over lists become structural recursion; the unbounded
  `while len(hashes) > 1` loop is modelled with a fuel argument that is
  always sufficient (each pass at least halves the list), so exhausted fuel
  never occurs on the believed-terminating paths and is returned as `none`.
-/

/-- Model of Python string defaulting `x or "d"`: `None` and the empty
string (both falsy) are replaced by the default. -/
def pyOr (x : Option String) (d : String) : String :=
  match x with
  | none => d
  | some s => if s = "" then d else s

/-! ## HashComputer (backend/blockchain/hash_computer.py)

`compute_merkle_root` pads an odd-length input once, then repeatedly
combines adjacent pairs:

    if not hashes: return H("")
    if len(hashes) == 1: return hashes[0]
    if len(hashes) % 2 == 1: hashes = hashes + [hashes[-1]]
    while len(hashes) > 1:
        next_level = []
        for i in range(0, len(hashes), 2):
            combined = hashes[i] + hashes[i + 1]
            next_level.append(HashComputer.hash_string(combined))
        hashes = next_level
    return hashes[0]

Note the inner `for` reads `hashes[i + 1]`; when a level has odd length
`>= 3` the last index is out of range and Python raises `IndexError`.
That failure is the `none` of `merkleCombine`. -/

/-- One pass of the inner `for` loop of `compute_merkle_root`: combine
adjacent pairs left to right.  On a list of odd length `>= 3` the Python
loop reads one element past the end (`hashes[i + 1]` with
`i = len(hashes) - 1`) and raises `IndexError`; the singleton case is that
same failure, the empty case yields an empty next level. -/
def merkleCombine (H : String → String) : List String → Option (List String)
  | [] => some []
  | [_] => none
  | a :: b :: rest => (merkleCombine H rest).map (fun l => H (a ++ b) :: l)

/-- The `while len(hashes) > 1` loop of `compute_merkle_root`, with fuel.
When the loop exits, Python returns `hashes[0]` (an `IndexError`, i.e.
`none`, on an empty list — unreachable from the real entry points). -/
def merkleLoop (H : String → String) : Nat → List String → Option String
  | 0, _ => none
  | fuel + 1, hashes =>
    if hashes.length > 1 then
      match merkleCombine H hashes with
      | none => none
      | some next => merkleLoop H fuel next
    else hashes.head?

/-- Model of `HashComputer.compute_merkle_root`.  The fuel
`hashes.length + 1` is always sufficient: every successful pass of
`merkleCombine` at least halves the length. -/
def computeMerkleRoot (H : String → String) (hashes : List String) : Option String :=
  if hashes.isEmpty then some (H "")
  else if hashes.length = 1 then hashes.head?
  else
    let padded := if hashes.length % 2 = 1 then hashes ++ [hashes.getLastD ""] else hashes
    merkleLoop H (padded.length + 1) padded

/-- Result record of `HashComputer.compute_batch_hash`. -/
structure BatchHashResult where
  hash_value : String
  merkle_root : String
  event_count : Nat
  previous_hash : Option String
deriving DecidableEq

/-- Model of `HashComputer.compute_batch_hash`: hash every event, take the
Merkle root, then hash the chain string
`f"{previous_hash or 'genesis'}:{merkle_root}:{len(events)}"`.
The `IndexError` that `compute_merkle_root` can raise propagates as `none`. -/
def computeBatchHash {α : Type} (H : String → String) (hashEvent : α → String)
    (events : List α) (previous_hash : Option String) : Option BatchHashResult :=
  let event_hashes := events.map hashEvent
  match computeMerkleRoot H event_hashes with
  | none => none
  | some merkle_root =>
    let chain_data := pyOr previous_hash "genesis" ++ ":" ++ merkle_root ++ ":" ++
      toString events.length
    some ⟨H chain_data, merkle_root, events.length, previous_hash⟩

/-! ### The specified Merkle algorithm (section 4.7 step 3 of the spec)

For comparison with the implementation: the specification pads an odd level
at EVERY level ("at every tree level, an odd number of nodes is padded by
duplicating the last one"), so it is total. -/

/-- Pairwise combination on an even-length level (the specified algorithm
only ever applies it after padding). -/
def specCombine (H : String → String) : List String → List String
  | a :: b :: rest => H (a ++ b) :: specCombine H rest
  | _ => []

/-- One level of the specified algorithm: pad to even length by duplicating
the last node, then combine adjacent pairs. -/
def specLevelStep (H : String → String) (level : List String) : List String :=
  let padded := if level.length % 2 = 1 then level ++ [level.getLastD ""] else level
  specCombine H padded

/-- Iterate `specLevelStep` until one hash remains (with always-sufficient
fuel, as each level at least halves). -/
def specMerkleLoop (H : String → String) : Nat → List String → Option String
  | 0, _ => none
  | fuel + 1, level =>
    if level.length > 1 then specMerkleLoop H fuel (specLevelStep H level)
    else level.head?

/-- The Merkle root as the specification defines it: count 0 gives
`H("")`, count 1 the leaf itself, otherwise per-level padding and pairwise
combination until one hash remains. -/
def specMerkleRoot (H : String → String) (hashes : List String) : Option String :=
  if hashes.isEmpty then some (H "")
  else if hashes.length = 1 then hashes.head?
  else specMerkleLoop H (hashes.length + 1) hashes




/-! ## ChainManager (backend/blockchain/chain_manager.py)

The block store is SQLite; a block row has an autoincrementing integer
primary key starting at 1.  The store is modelled as the list of rows in
reverse insertion order (newest first), which makes
`get_latest_block` (`ORDER BY id DESC ... first()`) the head of the list
and `add_block` a cons.  `id` is modelled by its autoincrement value, the
length of the store before insertion plus one.  `timestamp`,
`batch_start_id`, `batch_end_id` and `block_metadata` are carried by no
checked property and are omitted from the row model. -/

/-- A row of the `hash_blocks` table. -/
structure HashBlock where
  id : Nat
  block_hash : String
  previous_hash : Option String
  merkle_root : String
  event_count : Nat
deriving DecidableEq

/-- Model of `ChainManager.get_previous_hash`: the newest block's hash. -/
def getPreviousHash (st : List HashBlock) : Option String :=
  st.head?.map HashBlock.block_hash

/-- Model of `ChainManager.add_block`: read the current previous hash,
compute the batch hash (this can raise, giving `none`), then insert the new
row.  The autoincrement id of the new row is `st.length + 1`. -/
def addBlock {α : Type} (H : String → String) (hashEvent : α → String)
    (events : List α) (st : List HashBlock) : Option (List HashBlock) :=
  let previous_hash := getPreviousHash st
  match computeBatchHash H hashEvent events previous_hash with
  | none => none
  | some r =>
    some (⟨st.length + 1, r.hash_value, previous_hash, r.merkle_root, r.event_count⟩ :: st)

/-- Model of `ChainManager.get_chain` with `start_block = end_block = None`
(the form `verify_chain()` uses): all rows ordered by ascending id, limited
to `limit` rows. -/
def getChain (st : List HashBlock) (limit : Nat) : List HashBlock :=
  st.reverse.take limit

/-- One entry of the `errors` list built by `ChainManager.verify_chain`:
`block_id`, a fixed message, and the two hashes truncated to 16 chars
(`previous_hash` defaulting to the string literal used for a falsy value). -/
structure ChainError where
  block_id : Nat
  error : String
  expected : String
  actual : String
deriving DecidableEq

/-- The continuity scan of `verify_chain`: for every index `i > 0` compare
`blocks[i].previous_hash` with `blocks[i-1].block_hash`, appending an error
entry on mismatch.  (The `elif` branch for the first block is a `pass`.) -/
def chainErrors : List HashBlock → List ChainError
  | a :: b :: rest =>
    (if b.previous_hash ≠ some a.block_hash then
      [⟨b.id, "Chain broken - previous hash mismatch",
        a.block_hash.take 16, (pyOr b.previous_hash "none").take 16⟩]
     else []) ++ chainErrors (b :: rest)
  | _ => []

/-- Result of `ChainManager.verify_chain`.  The Python function returns a
dict whose key set depends on the case: the empty chain gets `message` and
no `errors`, `first_block` or `last_block`; the non-empty chain gets
`errors`, `first_block`, `last_block` and no `message`.  Absent keys are
`none` here. -/
structure VerifyResult where
  valid : Bool
  blocks_verified : Nat
  first_block : Option Nat
  last_block : Option Nat
  errors : Option (List ChainError)
  message : Option String
deriving DecidableEq

/-- Model of `ChainManager.verify_chain()` (no block range given): fetch at
most 10000 blocks in id order, scan for continuity mismatches. -/
def verifyChain (st : List HashBlock) : VerifyResult :=
  let blocks := getChain st 10000
  if blocks.isEmpty then
    ⟨true, 0, none, none, none, some "No blocks to verify"⟩
  else
    let errors := chainErrors blocks
    ⟨errors.isEmpty, blocks.length, blocks.head?.map HashBlock.id,
      blocks.getLast?.map HashBlock.id, some errors, none⟩

/-- Block stores reachable from the empty store by successive successful
`add_block` calls (each with an arbitrary event batch). -/
inductive Reached {α : Type} (H : String → String) (hashEvent : α → String) :
    List HashBlock → Prop
  | nil : Reached H hashEvent []
  | step (events : List α) {st st' : List HashBlock} :
      Reached H hashEvent st → addBlock H hashEvent events st = some st' →
      Reached H hashEvent st'

/-! ## IntegrityVerifier (backend/blockchain/integrity_verifier.py) -/

/-- Result of `IntegrityVerifier.verify_event_in_batch`.  As with
`VerifyResult`, the Python dict has two shapes (early "not found" return
with an `error` key; normal return with `position` and the Merkle fields);
absent keys are `none`. -/
structure InclusionResult where
  valid : Bool
  event_hash : String
  error : Option String
  position : Option Nat
  computed_merkle : Option String
  expected_merkle : Option String
deriving DecidableEq

/-- Model of `IntegrityVerifier.verify_event_in_batch`: hash the event and
every batch event, return early when the event hash is absent, otherwise
recompute the Merkle root (which can raise, hence `none`) and compare it
with the expected root.  `position` is Python `list.index`, the first
index of the event hash. -/
def verifyEventInBatch {α : Type} (H : String → String) (hashEvent : α → String)
    (event : α) (batch_events : List α) (expected_merkle_root : String) :
    Option InclusionResult :=
  let event_hash := hashEvent event
  let event_hashes := batch_events.map hashEvent
  if event_hash ∈ event_hashes then
    match computeMerkleRoot H event_hashes with
    | none => none
    | some computed_merkle =>
      some ⟨decide (computed_merkle = expected_merkle_root), event_hash, none,
        some (event_hashes.indexOf event_hash), some computed_merkle,
        some expected_merkle_root⟩
  else
    some ⟨false, event_hash, some "Event not found in batch", none, none, none⟩

/-! ## ParserRegistry (backend/parsers/parser_registry.py)

A parser is modelled by its identity and its `can_parse` predicate (the
only parts `register` and `detect_parser` look at).  The `_parsers` dict is
an association list in insertion order with overwrite-in-place update
(Python dict semantics); `_priority_order` is a list of parser ids. -/

/-- The slice of a parser object that registration and detection use. -/
structure Parser where
  parser_id : String
  can_parse : String → Bool

/-- Python dict update `d[k] = v`: overwrite in place if the key exists,
else append. -/
def dictInsert (k : String) (v : Parser) : List (String × Parser) → List (String × Parser)
  | [] => [(k, v)]
  | (k2, v2) :: rest =>
    if k2 = k then (k, v) :: rest else (k2, v2) :: dictInsert k v rest

/-- Registry state: the `_parsers` dict and the `_priority_order` list. -/
structure RegState where
  parsers : List (String × Parser)
  priority_order : List String

/-- The insertion loop of `ParserRegistry.register`: walk `_priority_order`,
skip ids no longer in the dict, and insert the new id right before the
first id still present; append when none is found.  Note that the loop
inserts before the FIRST live entry, i.e. at the front in the common case. -/
def insertLoop (live : String → Bool) (pid : String) : List String → List String
  | [] => [pid]
  | q :: rest => if live q then pid :: q :: rest else q :: insertLoop live pid rest

/-- Model of `ParserRegistry.register`.  The `priority` argument is
accepted and — exactly as in the source — never used. -/
def registryRegister (st : RegState) (p : Parser) (_priority : Nat) : RegState :=
  let parsers2 := dictInsert p.parser_id p st.parsers
  ⟨parsers2, insertLoop (fun q => (parsers2.lookup q).isSome) p.parser_id st.priority_order⟩

/-- The loop of `detect_parser`: walk the priority order and return the
first registered parser whose `can_parse` accepts the line. -/
def detectLoop (parsers : List (String × Parser)) (raw_log : String) :
    List String → Option Parser
  | [] => none
  | pid :: rest =>
    match parsers.lookup pid with
    | some p => if p.can_parse raw_log then some p else detectLoop parsers raw_log rest
    | none => detectLoop parsers raw_log rest

/-- Model of `ParserRegistry.detect_parser`. -/
def detectParser (st : RegState) (raw_log : String) : Option Parser :=
  detectLoop st.parsers raw_log st.priority_order

/-! ## Python string primitives

The Lean core `String` functions (`splitOn`, `trim`, `startsWith`,
`dropRightWhile`, `toLower`) are opaque to kernel reduction, so the Python
string operations the modelled code uses are re-implemented here over the
underlying character list, with the same semantics. -/

/-- The characters Python `str.strip()` removes. -/
def isPySpace (c : Char) : Bool :=
  c = ' ' || c = '\t' || c = '\n' || c = '\r' || c = '\x0b' || c = '\x0c'

/-- Python `str.strip()`. -/
def pyStrip (s : String) : String :=
  ⟨((s.data.dropWhile isPySpace).reverse.dropWhile isPySpace).reverse⟩

/-- Python `str.startswith(pre)`. -/
def pyStartsWith (s pre : String) : Bool :=
  pre.data.isPrefixOf s.data

/-- Python `s[n:]` for a non-negative `n`. -/
def pyDrop (s : String) (n : Nat) : String :=
  ⟨s.data.drop n⟩

/-- Python `str.rstrip("*")`. -/
def pyRstripStar (s : String) : String :=
  ⟨(s.data.reverse.dropWhile fun c => c = '*').reverse⟩

/-- Worker for Python `str.split(sep)` with a non-empty separator:
non-overlapping occurrences, scanned left to right.  The fuel is one more
than the number of characters left and is always sufficient (every step
consumes at least one character). -/
def pySplitAux (sep : List Char) : Nat → List Char → List Char → List (List Char)
  | 0, acc, rest => [acc.reverse ++ rest]
  | fuel + 1, acc, cs =>
    match cs with
    | [] => [acc.reverse]
    | c :: rest =>
      if sep.isPrefixOf (c :: rest) then
        acc.reverse :: pySplitAux sep fuel [] ((c :: rest).drop sep.length)
      else pySplitAux sep fuel (c :: acc) rest

/-- Python `s.split(sep)` for a non-empty separator. -/
def pySplit (s sep : String) : List String :=
  (pySplitAux sep.data (s.data.length + 1) [] s.data).map fun cs => ⟨cs⟩

/-- Python substring test `sub in s` for a non-empty `sub`. -/
def hasSub (s sub : String) : Bool := (pySplit s sub).length > 1


/-! ## SigmaMatcher condition evaluation (backend/detection/sigma/matcher.py)

`_evaluate_condition(condition, selection_results)` is modelled over the
selection-result dict as an association list (YAML mapping keys are
unique; insertion order is irrelevant to every construct used).  The
recursion consumes the condition string, so fuel `condition.length + 1` is
always sufficient. -/

/-- The body of `SigmaMatcher._evaluate_condition`, with fuel. -/
def evalCondition (sel : List (String × Bool)) : Nat → String → Bool
  | 0, _ => false
  | fuel + 1, condition =>
    match sel.lookup condition with
    | some v => v
    | none =>
      if pyStartsWith condition "not " then
        !(evalCondition sel fuel (pyDrop condition 4))
      else if hasSub condition " or " then
        ((pySplit condition " or ").map fun p => evalCondition sel fuel (pyStrip p)).any id
      else if hasSub condition " and " then
        ((pySplit condition " and ").map fun p => evalCondition sel fuel (pyStrip p)).all id
      else if pyStartsWith condition "all of " then
        let pat := pyRstripStar (pyStrip (pyDrop condition 7))
        ((sel.map Prod.fst).filter fun k => pyStartsWith k pat).all
          fun k => (sel.lookup k).getD false
      else if pyStartsWith condition "1 of " then
        let pat := pyRstripStar (pyStrip (pyDrop condition 5))
        ((sel.map Prod.fst).filter fun k => pyStartsWith k pat).any
          fun k => (sel.lookup k).getD false
      else (sel.lookup condition).getD false

/-- Model of `SigmaMatcher._evaluate_condition`. -/
def evaluateCondition (condition : String) (sel : List (String × Bool)) : Bool :=
  evalCondition sel (condition.data.length + 1) condition







/-! ## ThreatScorer (backend/detection/scorer.py)

Python float arithmetic is modelled by exact rational arithmetic; every
constant involved (the severity table, the type multipliers, the default
weights, 0.5) and every checked comparison is robust to that reading.  Only
the fields of a detection that `score` reads are modelled; the rounded
`threat_score` written back onto the detection (`round(final_score, 2)`)
is not, since the checked property is about the returned value. -/

/-- Python `min(a, b)` on numbers (the lattice operations on `ℚ` do not
kernel-reduce, so the comparison is spelled out). -/
def pyMinNat (a b : Nat) : Nat := if a ≤ b then a else b

/-- Python `min(a, b)` on rationals. -/
def pyMinQ (a b : ℚ) : ℚ := if a ≤ b then a else b

/-- Python `max(a, b)` on rationals. -/
def pyMaxQ (a b : ℚ) : ℚ := if b ≤ a then a else b

/-- The slice of a detection that `ThreatScorer.score` reads. -/
structure Detection where
  severity : String
  detection_type : String
  mitre_tactics : List String
  mitre_techniques : List String
  confidence : ℚ
deriving DecidableEq

/-- The `SEVERITY_SCORES` table with its `.get(severity, 50)` default. -/
def severityScore (s : String) : ℚ :=
  if s = "critical" then 100
  else if s = "high" then 80
  else if s = "medium" then 50
  else if s = "low" then 25
  else if s = "informational" then 10
  else 50

/-- The `DETECTION_TYPE_SCORES` table with its `.get(type, 0.7)` default. -/
def detectionTypeScore (t : String) : ℚ :=
  if t = "sigma" then 1
  else if t = "ml" then 0.8
  else if t = "heuristic" then 0.6
  else if t = "correlation" then 0.9
  else 0.7

/-- Scorer state: the four configured weights. -/
structure ThreatScorer where
  sigma_weight : ℚ
  mitre_weight : ℚ
  ml_weight : ℚ
  heuristic_weight : ℚ
deriving DecidableEq

/-- Model of `ThreatScorer.__init__`: store the weights, then normalise
them to sum to 1 when the total is positive. -/
def ThreatScorer.init (sw mw mlw hw : ℚ) : ThreatScorer :=
  let total := sw + mw + mlw + hw
  if 0 < total then ⟨sw / total, mw / total, mlw / total, hw / total⟩
  else ⟨sw, mw, mlw, hw⟩

/-- Model of `ThreatScorer.score` (the returned value). -/
def ThreatScorer.score (sc : ThreatScorer) (d : Detection) : ℚ :=
  let severity_score := severityScore d.severity
  let type_multiplier := detectionTypeScore d.detection_type
  let mitre_bonus : ℚ :=
    (if d.mitre_techniques.isEmpty then 0 else
      (pyMinNat (d.mitre_techniques.length * 5) 20 : Nat))
    + (if d.mitre_tactics.isEmpty then 0 else
      (pyMinNat (d.mitre_tactics.length * 3) 15 : Nat))
  let confidence_factor := pyMaxQ d.confidence 0.5
  let base_score := severity_score * type_multiplier
  let weighted :=
    if d.detection_type = "sigma" then base_score * sc.sigma_weight
    else if d.detection_type = "ml" then base_score * sc.ml_weight
    else if d.detection_type = "heuristic" then base_score * sc.heuristic_weight
    else base_score * 0.5
  let weighted2 := weighted + mitre_bonus * sc.mitre_weight
  let final_score := weighted2 * confidence_factor
  pyMinQ (pyMaxQ final_score 0) 100



/-! ## EventStore (backend/storage/event_store.py)

A stored event row is modelled by the three columns that
`get_batch_for_hashing` and `mark_batch` read or write: the string primary
key `id`, the `timestamp` (a `DateTime`; modelled as a totally ordered
tick count), and the nullable `batch_id`.  The table is the list of rows
in insertion order.  SQL `ORDER BY timestamp` leaves the relative order of
equal timestamps unspecified; it is modelled as a stable insertion sort by
timestamp. -/

/-- The columns of an `events` row that the batching operations touch. -/
structure StoredEvent where
  id : String
  timestamp : Nat
  batch_id : Option String
deriving DecidableEq

/-- Timestamp comparison used by `ORDER BY timestamp`. -/
def tsLe (a b : StoredEvent) : Prop := a.timestamp ≤ b.timestamp

instance : DecidableRel tsLe := fun a b => Nat.decLe a.timestamp b.timestamp

instance : IsTotal StoredEvent tsLe := ⟨fun a b => Nat.le_total a.timestamp b.timestamp⟩

instance : IsTrans StoredEvent tsLe := ⟨fun _ _ _ => Nat.le_trans⟩

/-- The WHERE clauses of `get_batch_for_hashing`: events not yet covered by
a block (`batch_id IS NULL`), and — when a truthy `after_id` names an
existing event — only events with a strictly later timestamp than that
reference event (`scalar_one_or_none` on a primary-key lookup is the first
matching row). -/
def eligibleEvents (store : List StoredEvent) (after_id : Option String) :
    List StoredEvent :=
  let unhashed := store.filter fun e => e.batch_id = none
  match after_id with
  | none => unhashed
  | some aid =>
    if aid = "" then unhashed
    else
      match (store.filter fun e => e.id = aid).head? with
      | some ref => unhashed.filter fun e => ref.timestamp < e.timestamp
      | none => unhashed

/-- Model of `EventStore.get_batch_for_hashing`: the eligible events,
ordered by timestamp, limited to `batch_size` rows. -/
def getBatchForHashing (store : List StoredEvent) (batch_size : Nat)
    (after_id : Option String) : List StoredEvent :=
  (List.insertionSort tsLe (eligibleEvents store after_id)).take batch_size

/-- Model of `EventStore.mark_batch`: `UPDATE events SET batch_id = :bid
WHERE id IN :event_ids`. -/
def markBatch (store : List StoredEvent) (event_ids : List String) (bid : String) :
    List StoredEvent :=
  store.map fun e =>
    if e.id ∈ event_ids then { e with batch_id := some bid } else e




/-! ## LinuxSyslogParser (backend/parsers/formats/linux_syslog.py)

The parser is driven by a handful of `re` patterns.  They are embedded as
deterministic character-list matchers: every quantified piece in these
patterns is a greedy run over a character class that is immediately
followed by a requirement drawn from a disjoint class (`\w+` before `\s+`,
`\S+` before `\s+`, `\d+` before a non-digit literal, bounded `\d{n}`
before `:`), so the greedy match without backtracking coincides with the
Python regex semantics; `re.search` is the same anchored match tried at
each start position from the left, and `re.match` anchors at the start
only.  Log lines are newline-split upstream, so `.` (which excludes a
newline) together with the end anchor `$` is modelled by `dotStarEnd`.
The one genuinely backtracking pattern, the sudo
`(\S+)\s*:\s*.*COMMAND=(.+)$`, is modelled explicitly: the longest prefix
of the leading nonspace run that is followed by `\s*:\s*`, and the last
`COMMAND=` occurrence for the greedy `.*`. -/

/-- Python regex word class (ASCII part; the inputs here are ASCII). -/
def isWordChar (c : Char) : Bool := c.isAlphanum || c = '_'

/-- Python regex digit class. -/
def isDigitChar (c : Char) : Bool := c.isDigit

/-- The process-name class of the RFC 3164 pattern. -/
def isProcChar (c : Char) : Bool := isWordChar c || c = '-' || c = '.' || c = '/'

/-- Greedy one-or-more run of a class: the matched run and the rest. -/
def reqRun (p : Char → Bool) (cs : List Char) : Option (List Char × List Char) :=
  let run := cs.takeWhile p
  if run.isEmpty then none else some (run, cs.drop run.length)

/-- Exactly `n` characters of a class. -/
def takeCount : Nat → (Char → Bool) → List Char → Option (List Char × List Char)
  | 0, _, cs => some ([], cs)
  | _ + 1, _, [] => none
  | n + 1, p, c :: rest =>
    if p c then (takeCount n p rest).map fun pr => (c :: pr.1, pr.2) else none

/-- A single literal character. -/
def reqChar (c : Char) : List Char → Option (List Char)
  | x :: rest => if x = c then some rest else none
  | [] => none

/-- A literal string. -/
def reqLit (lit : List Char) (cs : List Char) : Option (List Char) :=
  if lit.isPrefixOf cs then some (cs.drop lit.length) else none

/-- Pattern piece `\s+` followed by a one-or-more class run. -/
def spacedRun (p : Char → Bool) (cs : List Char) : Option (List Char × List Char) :=
  match reqRun isPySpace cs with
  | none => none
  | some (_, r) => reqRun p r

/-- Pattern piece `\s+` followed by a literal. -/
def spacedLit (lit : List Char) (cs : List Char) : Option (List Char) :=
  match reqRun isPySpace cs with
  | none => none
  | some (_, r) => reqLit lit r

/-- Python regex `.*$` with no MULTILINE or DOTALL flag: the run of
non-newline characters, valid only when nothing or a single final newline
follows. -/
def dotStarEnd (cs : List Char) : Option (List Char) :=
  let msg := cs.takeWhile fun c => c ≠ '\n'
  match cs.drop msg.length with
  | [] => some msg
  | ['\n'] => some msg
  | _ => none

/-- Leftmost match: `re.search` tries the anchored matcher at each start
position from the left (including the empty tail). -/
def searchPositions {β : Type} (f : List Char → Option β) : List Char → Option β
  | [] => f []
  | c :: rest =>
    match f (c :: rest) with
    | some g => some g
    | none => searchPositions f rest

/-- Value of a digit-run capture under Python `int`. -/
def digitsToNat (ds : List Char) : Nat :=
  ds.foldl (fun n c => n * 10 + (c.toNat - '0'.toNat)) 0

/-- Python `str.lower()`. -/
def pyLower (s : String) : String := ⟨s.data.map Char.toLower⟩

/-- Captures of the RFC 3164 pattern. -/
structure Rfc3164Groups where
  timestamp : String
  hostname : String
  process : String
  pid : Option String
  message : String
deriving DecidableEq

/-- The clock part `\d{2}:\d{2}:\d{2}` of the RFC 3164 timestamp. -/
def matchClock (cs : List Char) : Option (List Char × List Char) := do
  let (hh, r) ← takeCount 2 isDigitChar cs
  let r ← reqChar ':' r
  let (mi, r) ← takeCount 2 isDigitChar r
  let r ← reqChar ':' r
  let (ss, r) ← takeCount 2 isDigitChar r
  some (hh ++ [':'] ++ mi ++ [':'] ++ ss, r)

/-- The timestamp group `\w{3}\s+\d{1,2}\s+\d{2}:\d{2}:\d{2}`.  A maximal
digit run longer than 2 fails `\d{1,2}\s+` under every backtracking
split, hence the length guard. -/
def matchTimestamp3164 (cs : List Char) : Option (List Char × List Char) := do
  let (mon, r) ← takeCount 3 isWordChar cs
  let (sp1, r) ← reqRun isPySpace r
  let (day, r) ← reqRun isDigitChar r
  guard (day.length ≤ 2)
  let (sp2, r) ← reqRun isPySpace r
  let (clock, r) ← matchClock r
  some (mon ++ sp1 ++ day ++ sp2 ++ clock, r)

/-- The optional `(?:\[(?P<pid>\d+)\])?` group: a bracketed digit run,
consumed when present. -/
def matchBracketPid (cs : List Char) : Option (List Char) × List Char :=
  match cs with
  | '[' :: rest =>
    let ds := rest.takeWhile isDigitChar
    if ds.isEmpty then (none, cs)
    else
      match rest.drop ds.length with
      | ']' :: rest2 => (some ds, rest2)
      | _ => (none, cs)
  | _ => (none, cs)

/-- Model of `RFC3164_PATTERN` under `re.match`:
`^(\w{3}\s+\d{1,2}\s+\d{2}:\d{2}:\d{2})\s+(\S+)\s+([\w\-\.\/]+)(?:\[(\d+)\])?\s*:\s*(.*)$`. -/
def rfc3164Match (s : String) : Option Rfc3164Groups := do
  let (ts, r) ← matchTimestamp3164 s.data
  let (host, r) ← spacedRun (fun c => !isPySpace c) r
  let (proc, r) ← spacedRun isProcChar r
  let (pid, r) := matchBracketPid r
  let r ← reqChar ':' (r.dropWhile isPySpace)
  let msg ← dotStarEnd (r.dropWhile isPySpace)
  some ⟨⟨ts⟩, ⟨host⟩, ⟨proc⟩, pid.map fun p => (⟨p⟩ : String), ⟨msg⟩⟩

/-- Captures of the RFC 5424 pattern. -/
structure Rfc5424Groups where
  priority : String
  version : String
  timestamp : String
  hostname : String
  appname : String
  procid : String
  msgid : String
  structured_data : String
  message : String
deriving DecidableEq

/-- The branch `(?:\[.*?\])+` of the structured-data group: one or more
bracketed chunks, each closed at the nearest bracket (`.*?` is lazy and
cannot cross a newline).  The fuel is the remaining length plus one and
every iteration consumes at least two characters. -/
def sdBrackets : Nat → List Char → Option (List Char × List Char)
  | 0, _ => none
  | fuel + 1, cs =>
    match cs with
    | '[' :: rest =>
      let inner := rest.takeWhile fun c => c ≠ ']' && c ≠ '\n'
      match rest.drop inner.length with
      | ']' :: rest2 =>
        let consumed := '[' :: (inner ++ [']'])
        match rest2 with
        | '[' :: _ =>
          (sdBrackets fuel rest2).map fun pr => (consumed ++ pr.1, pr.2)
        | _ => some (consumed, rest2)
      | _ => none
    | _ => none

/-- The structured-data alternation `(?:\[.*?\])+|-`, left branch first. -/
def matchSD (cs : List Char) : Option (List Char × List Char) :=
  match sdBrackets (cs.length + 1) cs with
  | some pr => some pr
  | none =>
    match cs with
    | '-' :: rest => some (['-'], rest)
    | _ => none

/-- The envelope `<(\d+)>(\d+)` opening the RFC 5424 pattern. -/
def matchEnvelope5424 (cs : List Char) : Option (List Char × List Char × List Char) := do
  let r ← reqChar '<' cs
  let (pri, r) ← reqRun isDigitChar r
  let r ← reqChar '>' r
  let (ver, r) ← reqRun isDigitChar r
  some (pri, ver, r)

/-- The five space-separated `\S+` header tokens of the RFC 5424 pattern:
timestamp, hostname, app-name, procid, msgid. -/
def matchTokens5424 (cs : List Char) :
    Option (List Char × List Char × List Char × List Char × List Char × List Char) := do
  let (ts, r) ← spacedRun (fun c => !isPySpace c) cs
  let (host, r) ← spacedRun (fun c => !isPySpace c) r
  let (app, r) ← spacedRun (fun c => !isPySpace c) r
  let (pi, r) ← spacedRun (fun c => !isPySpace c) r
  let (mid, r) ← spacedRun (fun c => !isPySpace c) r
  some (ts, host, app, pi, mid, r)

/-- Model of `RFC5424_PATTERN` under `re.match`:
`^<(\d+)>(\d+)\s+(\S+)\s+(\S+)\s+(\S+)\s+(\S+)\s+(\S+)\s+((?:\[.*?\])+|-)\s*(.*)$`. -/
def rfc5424Match (s : String) : Option Rfc5424Groups := do
  let (pri, ver, r) ← matchEnvelope5424 s.data
  let (ts, host, app, pi, mid, r) ← matchTokens5424 r
  let (_, r2) ← reqRun isPySpace r
  let (sd, r3) ← matchSD r2
  let msg ← dotStarEnd (r3.dropWhile isPySpace)
  some ⟨⟨pri⟩, ⟨ver⟩, ⟨ts⟩, ⟨host⟩, ⟨app⟩, ⟨pi⟩, ⟨mid⟩, ⟨sd⟩, ⟨msg⟩⟩

/-- Captures of the two SSH login patterns (auth method, user, source IP,
source port). -/
structure SshLoginGroups where
  method : String
  user : String
  ip : String
  port : String
deriving DecidableEq

/-- The shared tail `(\S+)\s+from\s+(\S+)\s+port\s+(\d+)` of the SSH
patterns, yielding (user, ip, port). -/
def sshTail (cs : List Char) : Option (List Char × List Char × List Char) := do
  let (user, r) ← reqRun (fun c => !isPySpace c) cs
  let r ← spacedLit "from".data r
  let (ip, r) ← spacedRun (fun c => !isPySpace c) r
  let r ← spacedLit "port".data r
  let (port, _) ← spacedRun isDigitChar r
  some (user, ip, port)

/-- Anchored match of `SSH_ACCEPTED`:
`Accepted\s+(\w+)\s+for\s+(\S+)\s+from\s+(\S+)\s+port\s+(\d+)`. -/
def sshAcceptedAt (cs : List Char) : Option SshLoginGroups := do
  let r ← reqLit "Accepted".data cs
  let (method, r) ← spacedRun isWordChar r
  let r ← spacedLit "for".data r
  let (_, r) ← reqRun isPySpace r
  let (user, ip, port) ← sshTail r
  some ⟨⟨method⟩, ⟨user⟩, ⟨ip⟩, ⟨port⟩⟩

/-- Anchored match of `SSH_FAILED`:
`Failed\s+(\w+)\s+for\s+(?:invalid user\s+)?(\S+)\s+from\s+(\S+)\s+port\s+(\d+)`.
The optional group is tried first (with its whole continuation), as the
regex engine does. -/
def sshFailedAt (cs : List Char) : Option SshLoginGroups := do
  let r ← reqLit "Failed".data cs
  let (method, r) ← spacedRun isWordChar r
  let r ← spacedLit "for".data r
  let (_, r) ← reqRun isPySpace r
  let withOpt := do
    let r2 ← reqLit "invalid user".data r
    let (_, r3) ← reqRun isPySpace r2
    sshTail r3
  let (user, ip, port) ←
    match withOpt with
    | some g => some g
    | none => sshTail r
  some ⟨⟨method⟩, ⟨user⟩, ⟨ip⟩, ⟨port⟩⟩

/-- Anchored match of `SSH_INVALID`: `Invalid user\s+(\S+)\s+from\s+(\S+)`,
yielding (user, ip). -/
def sshInvalidAt (cs : List Char) : Option (String × String) := do
  let r ← reqLit "Invalid user".data cs
  let (user, r) ← reqRun isPySpace r >>= fun pr => reqRun (fun c => !isPySpace c) pr.2
  let r ← spacedLit "from".data r
  let (ip, _) ← spacedRun (fun c => !isPySpace c) r
  some ((⟨user⟩ : String), (⟨ip⟩ : String))

/-- Python `self._ssh_accepted.search(message)`. -/
def sshAcceptedSearch (message : String) : Option SshLoginGroups :=
  searchPositions sshAcceptedAt message.data

/-- Python `self._ssh_failed.search(message)`. -/
def sshFailedSearch (message : String) : Option SshLoginGroups :=
  searchPositions sshFailedAt message.data

/-- Python `self._ssh_invalid.search(message)`. -/
def sshInvalidSearch (message : String) : Option (String × String) :=
  searchPositions sshInvalidAt message.data

/-- Backtracking of `(\S+)\s*:\s*` in the sudo pattern: the regex engine
shortens the greedy nonspace run until `\s*:\s*` matches right after it;
`k` counts the prefix length still being tried, from longest down.
Returns the user capture and the text after the colon and its spaces. -/
def sudoColonSplit (run rest : List Char) : Nat → Option (List Char × List Char)
  | 0 => none
  | k + 1 =>
    let after := run.drop (k + 1) ++ rest
    let after2 := after.dropWhile isPySpace
    match after2 with
    | ':' :: r => some (run.take (k + 1), r.dropWhile isPySpace)
    | _ => sudoColonSplit run rest k

/-- The greedy `.*COMMAND=(.+)$` of the sudo pattern: the capture follows
the LAST `COMMAND=` occurrence and must be non-empty. -/
def lastCmdSuffix : List Char → Option (List Char)
  | [] => none
  | c :: rest =>
    match lastCmdSuffix rest with
    | some r => some r
    | none =>
      if "COMMAND=".data.isPrefixOf (c :: rest) then
        match dotStarEnd ((c :: rest).drop 8) with
        | some suf => if suf.isEmpty then none else some suf
        | none => none
      else none

/-- Anchored match of `SUDO_PATTERN`: `(\S+)\s*:\s*.*COMMAND=(.+)$`,
yielding (user, command line). -/
def sudoAt (cs : List Char) : Option (String × String) := do
  let (run, rest) ← reqRun (fun c => !isPySpace c) cs
  let (user, afterColon) ← sudoColonSplit run rest run.length
  let cmd ← lastCmdSuffix afterColon
  some ((⟨user⟩ : String), (⟨cmd⟩ : String))

/-- Python `self._sudo.search(message)`. -/
def sudoSearch (message : String) : Option (String × String) :=
  searchPositions sudoAt message.data




/-- The `ParsedEvent` dataclass of `backend/parsers/base_parser.py`,
restricted to the fields the syslog parser can set.  The `timestamp`
carries the raw matched timestamp text: the conversion to a `datetime`
(current-year stamping for RFC 3164, `utcnow` fallback) reads the wall
clock and is carried by no checked property.  The `extra` mapping stays
empty in this parser and is omitted. -/
structure ParsedEvent where
  timestamp : String
  event_kind : String
  event_category : List String
  event_action : Option String
  event_outcome : Option String
  host_name : Option String
  host_ip : Option String
  source_ip : Option String
  source_port : Option Nat
  destination_ip : Option String
  destination_port : Option Nat
  user_name : Option String
  user_domain : Option String
  process_name : Option String
  process_pid : Option Nat
  process_command_line : Option String
  file_path : Option String
  file_name : Option String
  message : Option String
  raw_log : Option String
  parser_id : Option String
  source_type : Option String
deriving DecidableEq

/-- A `ParsedEvent` with every dataclass default
(`event_kind = "event"`, empty category list, `None` elsewhere). -/
def defaultEvent (ts : String) : ParsedEvent :=
  ⟨ts, "event", [], none, none, none, none, none, none, none, none, none, none,
    none, none, none, none, none, none, none, none, none⟩

/-- The sudo / cron / systemd / PAM checks of
`LinuxSyslogParser._enrich_event` — everything after the SSH block, which
either returns early or falls through to these sequential checks. -/
def enrichRest (event : ParsedEvent) (process_lower message : String) : ParsedEvent :=
  if hasSub process_lower "sudo" then
    let e1 := { event with
      event_category := ["process", "authentication"], event_action := some "sudo" }
    let e2 :=
      match sudoSearch message with
      | some g => { e1 with
          user_name := some g.1, process_command_line := some g.2,
          event_outcome := some "success" }
      | none => e1
    if hasSub (pyLower message) "incorrect password" then
      { e2 with event_outcome := some "failure" }
    else if hasSub message "NOT in sudoers" then
      { e2 with event_outcome := some "failure" }
    else e2
  else if hasSub process_lower "cron" then
    { event with event_category := ["process"], event_action := some "cron_job" }
  else if hasSub process_lower "systemd" then
    let e1 := { event with event_category := ["process"] }
    if hasSub (pyLower message) "started" then
      { e1 with event_action := some "service_started" }
    else if hasSub (pyLower message) "stopped" then
      { e1 with event_action := some "service_stopped" }
    else if hasSub (pyLower message) "failed" then
        { e1 with event_action := some "service_failed", event_outcome := some "failure" }
    else e1
  else if hasSub (pyLower message) "pam" then
    let e1 := { event with event_category := ["authentication"] }
    if hasSub (pyLower message) "authentication failure" then
      { e1 with event_outcome := some "failure" }
    else if hasSub (pyLower message) "session opened" then
      { e1 with event_action := some "session_start", event_outcome := some "success" }
    else if hasSub (pyLower message) "session closed" then
      { e1 with event_action := some "session_end" }
    else e1
  else event

/-- Model of `LinuxSyslogParser._enrich_event`.  The SSH block sets the
category, then returns on the first of the accepted / failed / invalid-user
patterns that matches; with no match it falls through to the remaining
checks (with the category already overwritten). -/
def enrichEvent (event : ParsedEvent) (process message : String) : ParsedEvent :=
  let process_lower := if process = "" then "" else pyLower process
  if hasSub process_lower "ssh" then
    let e1 := { event with event_category := ["authentication", "network"] }
    match sshAcceptedSearch message with
    | some g =>
      { e1 with
        event_action := some "ssh_login",
        event_outcome := some "success",
        user_name := some g.user,
        source_ip := some g.ip,
        source_port := some (digitsToNat g.port.data) }
    | none =>
      match sshFailedSearch message with
      | some g =>
        { e1 with
          event_action := some "ssh_login",
          event_outcome := some "failure",
          user_name := some g.user,
          source_ip := some g.ip,
          source_port := some (digitsToNat g.port.data) }
      | none =>
        match sshInvalidSearch message with
        | some g =>
          { e1 with
            event_action := some "ssh_login",
            event_outcome := some "failure",
            user_name := some g.1,
            source_ip := some g.2 }
        | none => enrichRest e1 process_lower message
  else enrichRest event process_lower message

/-- Model of `LinuxSyslogParser._parse_rfc3164`. -/
def parseRfc3164 (g : Rfc3164Groups) (raw : String) (source_type : Option String) :
    ParsedEvent :=
  let base := { defaultEvent g.timestamp with
    host_name := some g.hostname,
    process_name := some g.process,
    process_pid := g.pid.map fun p => digitsToNat p.data,
    message := some g.message,
    raw_log := some raw,
    parser_id := some "linux_syslog",
    source_type := some (pyOr source_type "syslog") }
  enrichEvent base g.process g.message

/-- Model of `LinuxSyslogParser._parse_rfc5424`.  The `int(procid)` that
Python wraps in a `try` is modelled by the digits-only success case. -/
def parseRfc5424 (g : Rfc5424Groups) (raw : String) : ParsedEvent :=
  let hostname := if g.hostname = "-" then none else some g.hostname
  let appname := if g.appname = "-" then none else some g.appname
  let pid :=
    if g.procid ≠ "" && g.procid ≠ "-" && g.procid.data.all isDigitChar then
      some (digitsToNat g.procid.data)
    else none
  let event := { defaultEvent g.timestamp with
    host_name := hostname,
    process_name := appname,
    process_pid := pid,
    message := some g.message,
    raw_log := some raw,
    parser_id := some "linux_syslog",
    source_type := some "syslog" }
  match appname with
  | none => event
  | some app => if app = "" then event else enrichEvent event app g.message

/-- Model of `LinuxSyslogParser.parse`: strip, reject the empty line, try
RFC 5424 first, then RFC 3164. -/
def linuxSyslogParse (raw_log : String) (source_type : Option String) :
    Option ParsedEvent :=
  let raw := pyStrip raw_log
  if raw = "" then none
  else
    match rfc5424Match raw with
    | some m => some (parseRfc5424 m raw)
    | none =>
      match rfc3164Match raw with
      | some m => some (parseRfc3164 m raw source_type)
      | none => none



/-! ## Checked properties -/

/-- C1: the claim states `compute_merkle_root` terminates normally on every
leaf count, padding odd levels at every level; in the code only the INPUT
level is padded, so at six leaves the first pass yields a level of three
nodes and the next pass reads `hashes[i + 1]` one past the end — an
`IndexError` (`none` here) instead of a root.  The specified per-level
algorithm is defined at six leaves (instantiating the hash with string
concatenation to make the divergence concrete). -/
theorem c1_merkle_six_leaves_crash :
    computeMerkleRoot (fun s => s) ["a", "b", "c", "d", "e", "f"] = none ∧
    specMerkleRoot (fun s => s) ["a", "b", "c", "d", "e", "f"] = some "abcdefef" := by
  decide

/-- C3: the claim quantifies over every event list, but
`compute_batch_hash` inherits the `IndexError` of `compute_merkle_root`:
with six events it raises instead of returning the described hash record. -/
theorem c3_batch_hash_six_events_crash :
    computeBatchHash (fun s => s) (fun e : String => e)
      ["e1", "e2", "e3", "e4", "e5", "e6"] none = none := by
  decide

/-- On every input where `compute_batch_hash` does return, it returns
exactly the claimed record: the chain string is
`(prev or "genesis") : merkle_root : count` and `event_count` is the
number of events.  (Recorded as support for the C3 divergence being only
the crash.) -/
theorem computeBatchHash_formula {α : Type} (H : String → String) (hE : α → String)
    (events : List α) (prev : Option String) (r : BatchHashResult)
    (h : computeBatchHash H hE events prev = some r) :
    r.hash_value =
      H (pyOr prev "genesis" ++ ":" ++ r.merkle_root ++ ":" ++ toString events.length) ∧
    r.event_count = events.length ∧
    computeMerkleRoot H (events.map hE) = some r.merkle_root := by
  simp only [computeBatchHash] at h
  cases hm : computeMerkleRoot H (events.map hE) with
  | none => rw [hm] at h; cases h
  | some m => rw [hm] at h; cases h; exact ⟨rfl, rfl, rfl⟩

/-- The first index found by `list.index` holds the element. -/
theorem get?_indexOf {l : List String} {a : String} (h : a ∈ l) :
    l.get? (l.indexOf a) = some a := by
  induction l with
  | nil => cases h
  | cons x t ih =>
    by_cases hx : x = a
    · subst hx; simp [List.indexOf_cons_self]
    · have hmem : a ∈ t := by
        cases List.mem_cons.mp h with
        | inl heq => exact absurd heq.symm hx
        | inr hm => exact hm
      have hne : (x == a) = false := by simp [hx]
      simp only [List.indexOf_cons, hne, cond_false]
      simpa using ih hmem

/-- C4: inclusion soundness of `verify_event_in_batch` — whenever the check
returns with `valid = true`, the event's content hash occurs among the
batch's content hashes, the recomputed Merkle root equals the expected
root, and the reported position indexes an occurrence of the event's hash. -/
theorem c4_inclusion_soundness {α : Type} (H : String → String) (hE : α → String)
    (event : α) (batch : List α) (root : String) (r : InclusionResult)
    (hres : verifyEventInBatch H hE event batch root = some r)
    (hvalid : r.valid = true) :
    hE event ∈ batch.map hE ∧
    computeMerkleRoot H (batch.map hE) = some root ∧
    ∃ p, r.position = some p ∧ (batch.map hE).get? p = some (hE event) := by
  simp only [verifyEventInBatch] at hres
  by_cases hmem : hE event ∈ batch.map hE
  · rw [if_pos hmem] at hres
    cases hm : computeMerkleRoot H (batch.map hE) with
    | none => rw [hm] at hres; cases hres
    | some m =>
      rw [hm] at hres
      cases hres
      have hroot : m = root := of_decide_eq_true hvalid
      subst hroot
      exact ⟨hmem, rfl, (batch.map hE).indexOf (hE event), rfl, get?_indexOf hmem⟩
  · rw [if_neg hmem] at hres
    cases hres
    cases hvalid

/-- C4 witness: a singleton batch where the check succeeds, instantiating
the soundness theorem. -/
theorem c4_inclusion_witness :
    (fun _ : Nat => "x") 0 ∈ [0].map (fun _ : Nat => "x") ∧
    computeMerkleRoot (fun s => s) ([0].map (fun _ : Nat => "x")) = some "x" ∧
    ∃ p, (InclusionResult.mk true "x" none (some 0) (some "x") (some "x")).position = some p ∧
      ([0].map (fun _ : Nat => "x")).get? p = some ((fun _ : Nat => "x") 0) :=
  c4_inclusion_soundness (fun s => s) (fun _ => "x") 0 [0] "x"
    (InclusionResult.mk true "x" none (some 0) (some "x") (some "x"))
    (by decide) (by decide)

/-- A parser registered first with the LOWER priority value. -/
def parserA : Parser := ⟨"a", fun _ => true⟩

/-- A parser registered second with the HIGHER priority value. -/
def parserB : Parser := ⟨"b", fun _ => true⟩

/-- A registry built by `register(parserA, 10)` then `register(parserB, 20)`. -/
def demoRegistry : RegState :=
  registryRegister (registryRegister ⟨[], []⟩ parserA 10) parserB 20

/-- C5: the claim says detection returns the matching parser with the
lowest priority value, but `register` never reads its `priority` argument
(the insertion loop puts each new id in front of the first live id), so
after registering A with priority 10 and B with priority 20 — both
accepting every line — detection returns B, not A; and registering B with
any other priority value produces the identical registry. -/
theorem c5_priority_ignored :
    (detectParser demoRegistry "anything").map Parser.parser_id = some "b" ∧
    parserA.can_parse "anything" = true ∧
    parserA.parser_id = "a" ∧
    ("b" : String) ≠ "a" ∧
    registryRegister (registryRegister ⟨[], []⟩ parserA 10) parserB 20 =
      registryRegister (registryRegister ⟨[], []⟩ parserA 10) parserB 999 :=
  ⟨by decide, rfl, rfl, by decide, rfl⟩

/-- C6 counterexample: at a = true, b = false, c = false the condition
"a or b and c" evaluates to true, while the claimed flat left-to-right
reading (a or b) and c is false. -/
theorem c6_mixed_operators_counterexample :
    evaluateCondition "a or b and c" [("a", true), ("b", false), ("c", false)] = true ∧
    ((true || false) && false) = false := by
  decide

/-- C6 (amended): `_evaluate_condition` splits on " or " BEFORE " and ", so
`and` binds tighter than `or` (ordinary precedence, not flat left-to-right
evaluation): for every assignment, "a or b and c" evaluates to
a or (b and c). -/
theorem c6_or_split_first (a b c : Bool) :
    evaluateCondition "a or b and c" [("a", a), ("b", b), ("c", c)] = (a || (b && c)) := by
  cases a <;> cases b <;> cases c <;> decide

/-- The severity base exactly as the claim words it (only the five listed
severities; the catch-all is irrelevant under the theorem's hypothesis). -/
def claimBase (s : String) : ℚ :=
  if s = "critical" then 100
  else if s = "high" then 80
  else if s = "medium" then 50
  else if s = "low" then 25
  else if s = "informational" then 10
  else 0

/-- The kind multiplier as the claim words it (rule/sigma 1.0,
correlation 0.9, ml 0.8, heuristic 0.6). -/
def claimKindMult (t : String) : ℚ :=
  if t = "sigma" then 1
  else if t = "correlation" then 0.9
  else if t = "ml" then 0.8
  else if t = "heuristic" then 0.6
  else 0

/-- The kind weight per the AMENDED claim: the configured (normalised)
weight for sigma, ml and heuristic, and the fixed constant 0.5 for every
other kind — in particular for correlation, which has no configured
weight. -/
def claimKindWeight (sc : ThreatScorer) (t : String) : ℚ :=
  if t = "sigma" then sc.sigma_weight
  else if t = "ml" then sc.ml_weight
  else if t = "heuristic" then sc.heuristic_weight
  else 0.5

/-- The MITRE bonus as the claim words it:
min(5·techniques, 20) + min(3·tactics, 15). -/
def claimMitreBonus (d : Detection) : ℚ :=
  (pyMinNat (d.mitre_techniques.length * 5) 20 : Nat)
  + (pyMinNat (d.mitre_tactics.length * 3) 15 : Nat)

/-- The claimed score formula (with the amended kind weight):
(base × kind_multiplier × kind_weight + mitre_bonus × mitre_weight) ×
max(confidence, 0.5), clamped to [0, 100]. -/
def claimScore (sc : ThreatScorer) (d : Detection) : ℚ :=
  pyMinQ (pyMaxQ ((claimBase d.severity * claimKindMult d.detection_type *
    claimKindWeight sc d.detection_type + claimMitreBonus d * sc.mitre_weight) *
    pyMaxQ d.confidence 0.5) 0) 100

/-- The guarded bonus term of the implementation equals the claim's
unguarded min (an empty list contributes min 0 = 0 either way). -/
theorem bonusCast_eq (l : List String) (k cap : Nat) :
    (if l = [] then (0 : ℚ) else ((pyMinNat (l.length * k) cap : Nat) : ℚ))
      = ((pyMinNat (l.length * k) cap : Nat) : ℚ) := by
  cases l with
  | nil => simp [pyMinNat, Nat.zero_le]
  | cons a t => simp

/-- C7 (amended): for every scorer state and every detection whose
severity and kind are in the documented enumerations, `score` returns the
claimed formula, PROVIDED the kind weight reads: configured weight for
sigma/ml/heuristic, fixed 0.5 for correlation (the original claim's
"normalized configured weight ... for every kind, including correlation"
fails — correlation has no configured weight and the code uses 0.5). -/
theorem c7_score_formula (sc : ThreatScorer) (d : Detection)
    (hsev : d.severity ∈ ["critical", "high", "medium", "low", "informational"])
    (hkind : d.detection_type ∈ ["sigma", "ml", "heuristic", "correlation"]) :
    ThreatScorer.score sc d = claimScore sc d := by
  simp only [List.mem_cons, List.mem_singleton, List.not_mem_nil, or_false] at hsev hkind
  rcases hkind with hk | hk | hk | hk <;> rcases hsev with hs | hs | hs | hs | hs <;>
    simp +decide [ThreatScorer.score, claimScore, claimBase, claimKindMult,
      claimKindWeight, claimMitreBonus, severityScore, detectionTypeScore, hk, hs,
      bonusCast_eq]

/-- C7 counterexample: a correlation detection (severity critical, no
MITRE data, confidence 1) under the default weights scores 45 =
(100 × 0.9) × 0.5, which matches NONE of the four configured normalized
weights (0.4, 0.2, 0.3, 0.1 give 36, 18, 27, 9) — the claimed
"kind_weight ... for every kind, including correlation" does not exist in
the code, which uses the constant 0.5. -/
theorem c7_correlation_counterexample :
    ThreatScorer.score (ThreatScorer.init 0.4 0.2 0.3 0.1)
      ⟨"critical", "correlation", [], [], 1⟩ = 45 ∧
    (45 : ℚ) ≠ 100 * 0.9 * (ThreatScorer.init 0.4 0.2 0.3 0.1).sigma_weight ∧
    (45 : ℚ) ≠ 100 * 0.9 * (ThreatScorer.init 0.4 0.2 0.3 0.1).mitre_weight ∧
    (45 : ℚ) ≠ 100 * 0.9 * (ThreatScorer.init 0.4 0.2 0.3 0.1).ml_weight ∧
    (45 : ℚ) ≠ 100 * 0.9 * (ThreatScorer.init 0.4 0.2 0.3 0.1).heuristic_weight := by
  refine ⟨?_, by norm_num [ThreatScorer.init], by norm_num [ThreatScorer.init],
    by norm_num [ThreatScorer.init], by norm_num [ThreatScorer.init]⟩
  norm_num [ThreatScorer.score, ThreatScorer.init, severityScore, detectionTypeScore,
    pyMinQ, pyMaxQ, pyMinNat, (by decide : ¬("correlation" = "sigma")),
    (by decide : ¬("correlation" = "ml")), (by decide : ¬("correlation" = "heuristic"))]

/-- C7 witness: the amended formula theorem instantiated on a sigma
detection with the default weights. -/
theorem c7_score_witness :
    ("high" : String) ∈ ["critical", "high", "medium", "low", "informational"] ∧
    ("sigma" : String) ∈ ["sigma", "ml", "heuristic", "correlation"] ∧
    ThreatScorer.score (ThreatScorer.init 0.4 0.2 0.3 0.1)
        ⟨"high", "sigma", ["ta"], ["T1110"], 0.3⟩
      = claimScore (ThreatScorer.init 0.4 0.2 0.3 0.1)
        ⟨"high", "sigma", ["ta"], ["T1110"], 0.3⟩ :=
  ⟨by decide, by decide,
    c7_score_formula (ThreatScorer.init 0.4 0.2 0.3 0.1)
      ⟨"high", "sigma", ["ta"], ["T1110"], 0.3⟩ (by decide) (by decide)⟩

/-- The continuity scan reports nothing exactly when every adjacent pair of
the fetched (chronological) block list is linked. -/
theorem chainErrors_nil_iff (l : List HashBlock) :
    chainErrors l = [] ↔ l.Chain' fun a b => b.previous_hash = some a.block_hash := by
  induction l with
  | nil => simp [chainErrors]
  | cons a t ih =>
    cases t with
    | nil => simp [chainErrors]
    | cons b rest =>
      by_cases hc : b.previous_hash = some a.block_hash
      · simp [chainErrors, hc, ih, List.chain'_cons]
      · simp [chainErrors, hc, ih, List.chain'_cons]

/-- Invariant of stores reachable by `add_block` from empty (newest block
first): each block's `previous_hash` is the next older block's hash, and
the block at depth `i` carries autoincrement id `length - i`. -/
theorem reached_invariant {α : Type} {H : String → String} {hE : α → String}
    {st : List HashBlock} (h : Reached H hE st) :
    (st.Chain' fun a b => a.previous_hash = some b.block_hash) ∧
    ∀ i (hi : i < st.length), (st.get ⟨i, hi⟩).id = st.length - i := by
  induction h with
  | nil => exact ⟨List.chain'_nil, fun i hi => absurd hi (by simp)⟩
  | step events hr hadd ih =>
    rename_i st st'
    simp only [addBlock] at hadd
    cases hb : computeBatchHash H hE events (getPreviousHash st) with
    | none => rw [hb] at hadd; cases hadd
    | some r =>
      rw [hb] at hadd
      cases hadd
      obtain ⟨hch, hid⟩ := ih
      constructor
      · refine List.chain'_cons'.mpr ⟨?_, hch⟩
        intro y hy
        simp only [getPreviousHash]
        cases hhd : st.head? with
        | none => rw [hhd] at hy; cases hy
        | some z => rw [hhd] at hy; cases hy; simp [hhd]
      · intro i hi
        cases i with
        | zero => simp
        | succ j =>
          have hj : j < st.length := by
            simpa [Nat.succ_lt_succ_iff] using hi
          have := hid j hj
          simpa [List.get_cons_succ, Nat.succ_sub_succ] using this

/-- C2 (amended): for every store reachable from empty by successful
`add_block` calls, every block whose id has an immediate predecessor links
to that predecessor's hash; and when the chain is non-empty with at most
10000 blocks (the hard `limit=10000` inside `verify_chain`),
`verify_chain()` reports valid with all blocks verified, ids 1..n, and an
empty error list.  (The original claim fails for the empty store — whose
result carries a `message` and no `errors` key — and for chains longer
than 10000 blocks, where `blocks_verified` is capped.) -/
theorem c2_continuity_and_verify {α : Type} {H : String → String} {hE : α → String}
    {st : List HashBlock} (h : Reached H hE st) :
    (∀ b ∈ st, ∀ a ∈ st, a.id + 1 = b.id → b.previous_hash = some a.block_hash) ∧
    (st ≠ [] → st.length ≤ 10000 →
      verifyChain st = ⟨true, st.length, some 1, some st.length, some [], none⟩) := by
  obtain ⟨hch, hid⟩ := reached_invariant h
  constructor
  · intro b hb a ha hab
    obtain ⟨⟨i, hilt⟩, hbi⟩ := List.mem_iff_get.mp hb
    obtain ⟨⟨j, hjlt⟩, haj⟩ := List.mem_iff_get.mp ha
    have hbid := hid i hilt
    have haid := hid j hjlt
    rw [hbi] at hbid
    rw [haj] at haid
    have hj : j = i + 1 := by omega
    subst hj
    have hlink := List.chain'_iff_get.mp hch i (by omega)
    rw [hbi, haj] at hlink
    exact hlink
  · intro hne hlen
    have hn0 : 0 < st.length := List.length_pos.mpr hne
    have hblocks : getChain st 10000 = st.reverse := by
      simp only [getChain]
      exact List.take_of_length_le (by simpa using hlen)
    have hchron : st.reverse.Chain' fun a b => b.previous_hash = some a.block_hash := by
      rw [List.chain'_reverse]
      exact hch
    have herr : chainErrors st.reverse = [] := (chainErrors_nil_iff _).mpr hchron
    have hrevne : st.reverse.isEmpty = false := by
      simp [List.isEmpty_iff, hne]
    have hfirst : st.reverse.head?.map HashBlock.id = some 1 := by
      rw [List.head?_reverse]
      have hlt : st.length - 1 < st.length := by omega
      have hgl : st.getLast? = some (st.get ⟨st.length - 1, hlt⟩) := by
        rw [List.getLast?_eq_getElem?, List.getElem?_eq_getElem hlt]; rfl
      rw [hgl, Option.map_some', hid (st.length - 1) hlt]
      congr 1
      omega
    have hlast : st.reverse.getLast?.map HashBlock.id = some st.length := by
      rw [List.getLast?_reverse]
      have hgl : st.head? = some (st.get ⟨0, hn0⟩) := by
        rw [List.head?_eq_getElem?, List.getElem?_eq_getElem hn0]; rfl
      rw [hgl, Option.map_some', hid 0 hn0, Nat.sub_zero]
    simp only [verifyChain, hblocks, hrevne, Bool.false_eq_true, if_false, herr,
      List.isEmpty_nil, List.length_reverse, hfirst, hlast]

/-- A concrete constant hash for closed chain evaluations. -/
def hConst : String → String := fun _ => "h"

/-- A concrete constant event hash for closed chain evaluations. -/
def hEConst : String → String := fun _ => "e"

/-- The store after one `add_block` call with an empty batch under
`hConst`. -/
def chain1 : List HashBlock := [⟨1, "h", none, "h", 0⟩]

/-- The store after two `add_block` calls with empty batches under
`hConst`. -/
def chain2 : List HashBlock :=
  [⟨2, "h", some "h", "h", 0⟩, ⟨1, "h", none, "h", 0⟩]

/-- The two-block store is reachable by `add_block` from the empty store. -/
theorem chain2_reached : Reached hConst hEConst chain2 :=
  @Reached.step String hConst hEConst ([] : List String) chain1 chain2
    (@Reached.step String hConst hEConst ([] : List String) [] chain1
      Reached.nil (by decide))
    (by decide)

/-- C2 witness: the amended theorem instantiated on the concrete two-block
chain. -/
theorem c2_verify_witness :
    (∀ b ∈ chain2, ∀ a ∈ chain2, a.id + 1 = b.id → b.previous_hash = some a.block_hash) ∧
    verifyChain chain2 = ⟨true, 2, some 1, some 2, some [], none⟩ := by
  have h := c2_continuity_and_verify chain2_reached
  exact ⟨h.1, h.2 (by decide) (by decide)⟩

/-- Every `add_block` with an empty batch under the constant hash
succeeds and conses the evident block. -/
theorem addBlock_hConst (st : List HashBlock) :
    addBlock hConst hEConst ([] : List String) st =
      some (⟨st.length + 1, "h", getPreviousHash st, "h", 0⟩ :: st) := rfl

/-- The store after `n` successive `add_block` calls with empty batches
under the constant hash. -/
def buildChainN : Nat → List HashBlock
  | 0 => []
  | n + 1 =>
    match addBlock hConst hEConst ([] : List String) (buildChainN n) with
    | some st => st
    | none => buildChainN n

theorem buildChainN_succ (n : Nat) :
    buildChainN (n + 1) =
      ⟨(buildChainN n).length + 1, "h", getPreviousHash (buildChainN n), "h", 0⟩
        :: buildChainN n := by
  simp [buildChainN, addBlock_hConst]

theorem buildChainN_length (n : Nat) : (buildChainN n).length = n := by
  induction n with
  | zero => rfl
  | succ n ih => rw [buildChainN_succ]; simp [ih]

theorem buildChainN_reached (n : Nat) : Reached hConst hEConst (buildChainN n) := by
  induction n with
  | zero => exact Reached.nil
  | succ n ih =>
    exact Reached.step ([] : List String) ih
      (by rw [buildChainN_succ]; exact addBlock_hConst (buildChainN n))

/-- C2 counterexample: a chain of 10001 blocks built exclusively by
successive `add_block` calls from the empty store; `verify_chain()` fetches
at most 10000 blocks (`limit=10000`), so `blocks_verified` is NOT the
number of blocks, falsifying the claim as stated. -/
theorem c2_verify_limit_counterexample :
    Reached hConst hEConst (buildChainN 10001) ∧
    (verifyChain (buildChainN 10001)).blocks_verified ≠ (buildChainN 10001).length := by
  refine ⟨buildChainN_reached 10001, ?_⟩
  have hlen : (buildChainN 10001).length = 10001 := buildChainN_length 10001
  have hblocks : (getChain (buildChainN 10001) 10000).length = 10000 := by
    simp [getChain, List.length_take, hlen]
  have hne : (getChain (buildChainN 10001) 10000).isEmpty = false := by
    cases hEmpty : (getChain (buildChainN 10001) 10000).isEmpty with
    | false => rfl
    | true =>
      rw [List.isEmpty_iff] at hEmpty
      rw [hEmpty] at hblocks
      cases hblocks
  simp only [verifyChain, hne, Bool.false_eq_true, if_false, hblocks, hlen]
  omega

/-- Every event the batching query returns is still uncovered
(`batch_id IS NULL`). -/
theorem eligible_batch_id_none {store : List StoredEvent} {aid : Option String}
    {e : StoredEvent} (he : e ∈ eligibleEvents store aid) : e.batch_id = none := by
  have base : ∀ x : StoredEvent,
      x ∈ store.filter (fun v => v.batch_id = none) → x.batch_id = none := by
    intro x hx
    have := (List.mem_filter.mp hx).2
    exact of_decide_eq_true this
  cases aid with
  | none => simp only [eligibleEvents] at he; exact base e he
  | some a =>
    simp only [eligibleEvents] at he
    by_cases ha : a = ""
    · rw [if_pos ha] at he; exact base e he
    · rw [if_neg ha] at he
      cases hh : (store.filter fun v => v.id = a).head? with
      | none => rw [hh] at he; exact base e he
      | some ref =>
        rw [hh] at he
        exact base e (List.mem_filter.mp he).1

/-- Lexicographic comparison of two character lists, the order underlying
`String.lt` (the core `String.ltb` is opaque to kernel reduction, so the
order is spelled out for closed evaluation). -/
def charListLt : List Char → List Char → Bool
  | [], [] => false
  | [], _ :: _ => true
  | _ :: _, [] => false
  | a :: as, b :: bs => if a < b then true else if b < a then false else charListLt as bs

/-- Strict id order of two stored events (lexicographic on the id). -/
def idLtB (a b : StoredEvent) : Bool := charListLt a.id.data b.id.data

/-- Executable check that a result sequence is sorted by ascending id. -/
def sortedByIdB : List StoredEvent → Bool
  | a :: b :: rest => idLtB a b && sortedByIdB (b :: rest)
  | _ => true

/-- C8 (amended): `get_batch_for_hashing` returns only uncovered events, at
most `size` of them, sorted by TIMESTAMP (the SQL query orders by
`timestamp`, not id), and the returned list is a prefix of a
timestamp-sorted permutation of all eligible events (so nothing with a
strictly smaller timestamp is skipped); `mark_batch` stamps exactly the
rows whose id is listed, leaving every other row unchanged. -/
theorem c8_batching (store : List StoredEvent) (size : Nat) (aid : Option String)
    (ids : List String) (bid : String) :
    (∀ e ∈ getBatchForHashing store size aid, e.batch_id = none) ∧
    (getBatchForHashing store size aid).length ≤ size ∧
    List.Sorted tsLe (getBatchForHashing store size aid) ∧
    (∃ rest, (getBatchForHashing store size aid ++ rest).Perm (eligibleEvents store aid) ∧
      List.Sorted tsLe (getBatchForHashing store size aid ++ rest)) ∧
    (markBatch store ids bid).length = store.length ∧
    (∀ i e, store.get? i = some e →
      (markBatch store ids bid).get? i =
        some (if e.id ∈ ids then { e with batch_id := some bid } else e)) := by
  refine ⟨?_, ?_, ?_, ?_, ?_, ?_⟩
  · intro e he
    have h1 : e ∈ List.insertionSort tsLe (eligibleEvents store aid) :=
      List.mem_of_mem_take he
    have h2 : e ∈ eligibleEvents store aid :=
      (List.perm_insertionSort tsLe (eligibleEvents store aid)).subset h1
    exact eligible_batch_id_none h2
  · simp only [getBatchForHashing, List.length_take]
    exact min_le_left _ _
  · exact List.Pairwise.sublist (List.take_sublist _ _)
      (List.sorted_insertionSort tsLe (eligibleEvents store aid))
  · refine ⟨(List.insertionSort tsLe (eligibleEvents store aid)).drop size, ?_, ?_⟩
    · rw [getBatchForHashing, List.take_append_drop]
      exact List.perm_insertionSort tsLe (eligibleEvents store aid)
    · rw [getBatchForHashing, List.take_append_drop]
      exact List.sorted_insertionSort tsLe (eligibleEvents store aid)
  · simp [markBatch]
  · intro i e hie
    rw [markBatch, List.get?_map, hie, Option.map_some']

/-- A store whose id order and timestamp order disagree. -/
def demoStore : List StoredEvent := [⟨"1", 10, none⟩, ⟨"2", 5, none⟩]

/-- C8 counterexample: on `demoStore` the batching query returns the
event with id "2" BEFORE the event with id "1" (it orders by timestamp),
so the returned sequence is not sorted by id as the claim states. -/
theorem c8_id_order_counterexample :
    getBatchForHashing demoStore 1000 none = [⟨"2", 5, none⟩, ⟨"1", 10, none⟩] ∧
    sortedByIdB (getBatchForHashing demoStore 1000 none) = false := by
  constructor
  · decide
  · decide

/-- C8 witness: the amended theorem instantiated on `demoStore`. -/
theorem c8_batching_witness :
    (∀ e ∈ getBatchForHashing demoStore 1 none, e.batch_id = none) ∧
    (markBatch demoStore ["2"] "b").get? 1 = some ⟨"2", 5, some "b"⟩ := by
  have h := c8_batching demoStore 1 none ["2"] "b"
  refine ⟨h.1, ?_⟩
  have h6 := h.2.2.2.2.2 1 ⟨"2", 5, none⟩ (by decide)
  rw [h6]
  decide

/-- C9: parsing the seed syslog line yields exactly one event with
host `webserver`, user `admin`, source 192.168.1.100:52431, action
`ssh_login`, outcome `success`, and `authentication` among its
categories. -/
theorem c9_ssh_seed_line :
    (linuxSyslogParse
      "Dec 31 10:00:00 webserver sshd[1234]: Accepted password for admin from 192.168.1.100 port 52431 ssh2"
      none).map ParsedEvent.host_name = some (some "webserver") ∧
    (linuxSyslogParse
      "Dec 31 10:00:00 webserver sshd[1234]: Accepted password for admin from 192.168.1.100 port 52431 ssh2"
      none).map ParsedEvent.user_name = some (some "admin") ∧
    (linuxSyslogParse
      "Dec 31 10:00:00 webserver sshd[1234]: Accepted password for admin from 192.168.1.100 port 52431 ssh2"
      none).map ParsedEvent.source_ip = some (some "192.168.1.100") ∧
    (linuxSyslogParse
      "Dec 31 10:00:00 webserver sshd[1234]: Accepted password for admin from 192.168.1.100 port 52431 ssh2"
      none).map ParsedEvent.source_port = some (some 52431) ∧
    (linuxSyslogParse
      "Dec 31 10:00:00 webserver sshd[1234]: Accepted password for admin from 192.168.1.100 port 52431 ssh2"
      none).map ParsedEvent.event_action = some (some "ssh_login") ∧
    (linuxSyslogParse
      "Dec 31 10:00:00 webserver sshd[1234]: Accepted password for admin from 192.168.1.100 port 52431 ssh2"
      none).map ParsedEvent.event_outcome = some (some "success") ∧
    (linuxSyslogParse
      "Dec 31 10:00:00 webserver sshd[1234]: Accepted password for admin from 192.168.1.100 port 52431 ssh2"
      none).map ParsedEvent.event_category = some ["authentication", "network"] ∧
    "authentication" ∈ ["authentication", "network"] := by
  refine ⟨?_, ?_, ?_, ?_, ?_, ?_, ?_, ?_⟩ <;> decide

/-- C10 counterexample: a selection literally named "all of sel*" does not
start with the prefix "sel", yet the condition "all of sel*" evaluates to
that selection's value (the dict hit on the full condition string comes
first), not to the claimed vacuous true. -/
theorem c10_vacuous_counterexample :
    evaluateCondition "all of sel*" [("all of sel*", false)] = false ∧
    pyStartsWith "all of sel*" "sel" = false := by
  decide

/-- C10 (amended): when no selection name starts with the prefix AND the
full condition string itself is not a selection name, "all of sel*" is
vacuously true while "1 of sel*" is false — so a rule whose selections are
all misnamed relative to its "all of" condition matches every event. -/
theorem c10_vacuous_all_of (sel : List (String × Bool))
    (hpre : ∀ p ∈ sel, pyStartsWith p.1 "sel" = false)
    (hall : sel.lookup "all of sel*" = none)
    (hone : sel.lookup "1 of sel*" = none) :
    evaluateCondition "all of sel*" sel = true ∧
    evaluateCondition "1 of sel*" sel = false := by
  have hfilter : ((sel.map Prod.fst).filter fun k => pyStartsWith k "sel") = [] := by
    rw [List.filter_eq_nil_iff]
    intro k hk
    obtain ⟨p, hp, rfl⟩ := List.mem_map.mp hk
    simp [hpre p hp]
  constructor
  · show evalCondition sel (11 + 1) "all of sel*" = true
    rw [evalCondition, hall]
    simp only [
      (by decide : pyStartsWith "all of sel*" "not " = false),
      (by decide : hasSub "all of sel*" " or " = false),
      (by decide : hasSub "all of sel*" " and " = false),
      (by decide : pyStartsWith "all of sel*" "all of " = true),
      (by decide : pyRstripStar (pyStrip (pyDrop "all of sel*" 7)) = "sel")]
    simp [hfilter]
  · show evalCondition sel (9 + 1) "1 of sel*" = false
    rw [evalCondition, hone]
    simp only [
      (by decide : pyStartsWith "1 of sel*" "not " = false),
      (by decide : hasSub "1 of sel*" " or " = false),
      (by decide : hasSub "1 of sel*" " and " = false),
      (by decide : pyStartsWith "1 of sel*" "all of " = false),
      (by decide : pyStartsWith "1 of sel*" "1 of " = true),
      (by decide : pyRstripStar (pyStrip (pyDrop "1 of sel*" 5)) = "sel")]
    simp [hfilter]

/-- C10 witness: the amended theorem on a one-selection dict whose only
name does not start with the prefix. -/
theorem c10_vacuous_witness :
    evaluateCondition "all of sel*" [("foo", true)] = true ∧
    evaluateCondition "1 of sel*" [("foo", true)] = false :=
  c10_vacuous_all_of [("foo", true)] (by decide) (by decide) (by decide)
